import Mathlib

/-!
Verification of the rate-limited Clio API client (src/services/rate_limiter.py)
and the natural-language query processor (src/nlp_agent/nlp/processor.py).

The Python code is shallowly embedded: the stateful rate limiter becomes an
explicit state-passing function over rational timestamps, the retry loop of
ClioAPIClient.request becomes a structurally recursive function over a scripted
server, pagination becomes a fuel-bounded recursion, and the NLP processor's
regex tables become a small pattern AST with a backtracking matcher that
implements the semantics of the exact regular expressions appearing in the
source (literals, literal alternations, optional literal alternations, and
greedy one-or-more character-class capture groups).
-/

/-! ## ClioAPIClient.request: retry loop (src/services/rate_limiter.py lines 73-139)

The HTTP transport is abstracted as a script `server : Nat → AttemptResp`
giving the outcome of the attempt with index `attempt` (the loop variable of
`for attempt in range(max_retries + 1)`).  `AttemptResp.resp status retryAfter`
is an HTTP response (with the optional parsed integer Retry-After header);
`AttemptResp.transportFail` is an `httpx.RequestError` raised by the transport.
-/

inductive AttemptResp where
  | resp (status : Nat) (retryAfter : Option Nat)
  | transportFail
deriving DecidableEq, Repr

/-- Errors `ClioAPIClient.request` can raise:
`valueError` is the `ValueError("Authentication token not set")` raised before
the loop (the spec's taxonomy calls this the configuration error);
`httpStatusError` is what `response.raise_for_status()` raises;
`requestError` is the re-raised transport error;
`httpError` is the final `httpx.HTTPError("Max retries exceeded")` after the
loop runs out of iterations. -/
inductive ReqError where
  | valueError
  | httpStatusError (status : Nat)
  | requestError
  | httpError
deriving DecidableEq, Repr

inductive ReqOutcome where
  | ok (status : Nat)
  | raised (e : ReqError)
deriving DecidableEq, Repr

/-- Observable trace of one call to `ClioAPIClient.request`:
the outcome, the number of HTTP attempts issued, the number of times the
rate gate (`rate_limiter.wait_if_needed`) was passed, and the list of
sleeps (seconds) performed between attempts (Retry-After waits and
exponential backoff, in order; rate-gate waits excluded). -/
structure ReqTrace where
  outcome : ReqOutcome
  attempts : Nat
  gateChecks : Nat
  sleeps : List Nat
deriving DecidableEq, Repr

/-- Body of `for attempt in range(max_retries + 1)` in
`ClioAPIClient.request`.  `fuel` is the number of loop iterations left,
so the function is called with `fuel = max_retries + 1 - attempt`; running out
of fuel is falling off the end of the `for` loop, which raises
`httpx.HTTPError(f"Max retries ... exceeded")`.

Each iteration: pass the rate gate, issue the attempt; on 429 with a
Retry-After header sleep that many seconds and `continue`; otherwise, on
status ≥ 400, retry with `2 ** attempt` backoff only while
`attempt < max_retries and status >= 500`, else `raise_for_status()`;
on a transport error retry with the same backoff while
`attempt < max_retries`, else re-raise. -/
def requestGo (server : Nat → AttemptResp) (max_retries : Nat) :
    Nat → Nat → ReqTrace
  | _, 0 => ⟨.raised .httpError, 0, 0, []⟩
  | attempt, fuel + 1 =>
    match server attempt with
    | .transportFail =>
      if attempt < max_retries then
        let t := requestGo server max_retries (attempt + 1) fuel
        ⟨t.outcome, t.attempts + 1, t.gateChecks + 1, 2 ^ attempt :: t.sleeps⟩
      else ⟨.raised .requestError, 1, 1, []⟩
    | .resp status retryAfter =>
      match (if status = 429 then retryAfter else none) with
      | some ra =>
        let t := requestGo server max_retries (attempt + 1) fuel
        ⟨t.outcome, t.attempts + 1, t.gateChecks + 1, ra :: t.sleeps⟩
      | none =>
        if 400 ≤ status then
          if attempt < max_retries ∧ 500 ≤ status then
            let t := requestGo server max_retries (attempt + 1) fuel
            ⟨t.outcome, t.attempts + 1, t.gateChecks + 1, 2 ^ attempt :: t.sleeps⟩
          else ⟨.raised (.httpStatusError status), 1, 1, []⟩
        else ⟨.ok status, 1, 1, []⟩

/-- `ClioAPIClient.request`: raises `ValueError` before the loop (and before
any rate-gate wait) when no auth token is set, otherwise runs the retry loop
with `max_retries + 1` iterations available. -/
def request (auth_token : Option String) (server : Nat → AttemptResp)
    (max_retries : Nat) : ReqTrace :=
  match auth_token with
  | none => ⟨.raised .valueError, 0, 0, []⟩
  | some _ => requestGo server max_retries 0 (max_retries + 1)

/-! ## RateLimiter.wait_if_needed (src/services/rate_limiter.py lines 26-49)

Timestamps are rationals (seconds since epoch).  The method is embedded as a
state-passing function: given the stored `request_times` and the current time
`now` (the single `time.time()` read at the top of the critical section), it
returns the real time at which the call finishes (now plus the hourly sleep
plus the per-minute sleep, performed sequentially — the code reuses the stale
`now` for every computation after sleeping) and the new `request_times` list
(pruned, with `now` appended).  `asyncio.sleep` and the lock are modelled by
the returned completion time; the next caller's `now` is at least it.
-/

/-- The sleep performed by one of the two limit checks in `wait_if_needed`:
`sleep_time = window - (now - l[0])` when the window holds at least `cap`
entries, else no sleep.  The `none` branch is unreachable for `cap ≥ 1`
(Python would raise `IndexError` on `l[0]` there). -/
def sleepOf (cap : Nat) (window : ℚ) (l : List ℚ) (now : ℚ) : ℚ :=
  if cap ≤ l.length then
    match l.head? with
    | some t0 => window - (now - t0)
    | none => 0
  else 0

/-- `RateLimiter.wait_if_needed`: prune entries older than one hour, sleep if
the hourly window is full, sleep if the minute window (computed from the
pruned list and the stale `now`) is full, then append `now` (not the
post-sleep time) to `request_times`. -/
def wait_if_needed (requests_per_minute requests_per_hour : Nat)
    (request_times : List ℚ) (now : ℚ) : ℚ × List ℚ :=
  let pruned := request_times.filter (fun t => now - 3600 < t)
  let recent := pruned.filter (fun t => now - 60 < t)
  (now + sleepOf requests_per_hour 3600 pruned now
       + sleepOf requests_per_minute 60 recent now,
   pruned ++ [now])

/-- A sequence of calls to `wait_if_needed` on one `RateLimiter`, serialized by
its lock: the i-th call happens `delays[i] ≥ 0` seconds after the previous
call completed (its `now` cannot precede the previous completion, because the
lock is held across the sleeps).  For each call the trace records the
completion time, the length of the pruned list at the check, and the length of
the sub-minute `recent_requests` list at the check. -/
def runCalls (pm ph : Nat) : List ℚ → ℚ → List ℚ → List (ℚ × Nat × Nat)
  | _, _, [] => []
  | times, tPrev, d :: ds =>
    let now := tPrev + d
    let pruned := times.filter (fun t => now - 3600 < t)
    let recent := pruned.filter (fun t => now - 60 < t)
    let r := wait_if_needed pm ph times now
    (r.1, pruned.length, recent.length) :: runCalls pm ph r.2 r.1 ds

/-- Invariant of the recorded `request_times` between calls, relative to the
time `tPrev` at which the last call completed: every recorded timestamp is in
the past, and the recorded counts in the trailing hour and minute windows are
within the two caps. -/
def RLInv (pm ph : Nat) (times : List ℚ) (tPrev : ℚ) : Prop :=
  (∀ t ∈ times, t ≤ tPrev) ∧
  (times.filter (fun t => tPrev - 3600 < t)).length ≤ ph ∧
  (times.filter (fun t => tPrev - 60 < t)).length ≤ pm

/-! ## ClioAPIClient.paginated_request and get_all
(src/services/rate_limiter.py lines 141-212)

Each page request is assumed to succeed (the two-page scenario of the claims);
`server page` is the parsed JSON body returned for that page number, so one
call to `server` is one HTTP request through `self.request`.
-/

/-- Shape of the `data` handling in `paginated_request`: a body with a
`data` JSON array, a body whose `data` is a single object (wrapped into a
one-element batch), or a body without a `data` key, whose items are the body
itself (a dict body counts as the single item `[data]`, a list body as its
elements). -/
inductive RespData (α : Type) where
  | dataList (items : List α)
  | dataSingle (item : α)
  | direct (items : List α)
deriving DecidableEq, Repr

/-- One page body: its items shape and whether `meta.paging.next` is present
(and truthy). -/
structure PageResp (α : Type) where
  data : RespData α
  hasNext : Bool
deriving DecidableEq, Repr

/-- The `items` extracted from a page body by `paginated_request`. -/
def RespData.items {α : Type} : RespData α → List α
  | .dataList l => l
  | .dataSingle x => [x]
  | .direct l => l

/-- Python dict assignment `params[k] = v` on a string-keyed mapping modelled
as an insertion-ordered association list: replace the value in place if the
key exists, else append the pair. -/
def setParam (k : String) (v : Nat) :
    List (String × Nat) → List (String × Nat)
  | [] => [(k, v)]
  | (k2, v2) :: rest =>
    if k2 = k then (k, v) :: rest else (k2, v2) :: setParam k v rest

/-- Observable result of `paginated_request`: the yielded items in order, the
number of page requests issued, and the final state of the caller's `params`
mapping (which the generator mutates in place). -/
structure PageTrace (α : Type) where
  items : List α
  requests : Nat
  finalParams : List (String × Nat)
deriving DecidableEq, Repr

/-- The `while True` loop of `paginated_request`: set `params["page"]`, issue
the request, extract the items; stop on an empty batch, yield the items, stop
if `meta.paging.next` is absent, else continue with `page + 1`.  `fuel` bounds
the number of iterations (the Python loop is unbounded); every theorem below
supplies enough fuel for the loop to reach its `break`. -/
def paginatedGo {α : Type} (server : Nat → PageResp α) :
    Nat → Nat → List (String × Nat) → PageTrace α
  | 0, _, params => ⟨[], 0, params⟩
  | fuel + 1, page, params =>
    let params2 := setParam "page" page params
    let resp := server page
    let items := resp.data.items
    if items.isEmpty then ⟨[], 1, params2⟩
    else if resp.hasNext then
      let t := paginatedGo server fuel (page + 1) params2
      ⟨items ++ t.items, t.requests + 1, t.finalParams⟩
    else ⟨items, 1, params2⟩

/-- `ClioAPIClient.paginated_request`: caps the page size at 200 by writing
`params["per_page"] = min(per_page, 200)` into the caller's mapping (a `None`
params argument is modelled by the caller passing the empty mapping), then
walks the pages starting at page 1. -/
def paginated_request {α : Type} (server : Nat → PageResp α)
    (params : List (String × Nat)) (per_page : Nat) (fuel : Nat) :
    PageTrace α :=
  paginatedGo server fuel 1 (setParam "per_page" (min per_page 200) params)

/-- `ClioAPIClient.get_all`: materializes `paginated_request` into the list of
all items; also exposes the number of page requests made. -/
def get_all {α : Type} (server : Nat → PageResp α)
    (params : List (String × Nat)) (per_page : Nat) (fuel : Nat) :
    List α × Nat :=
  let t := paginated_request server params per_page fuel
  (t.items, t.requests)

/-! ## NLPProcessor (src/nlp_agent/nlp/processor.py)

Queries are matched as `List Char` (ASCII), since the claims' inputs are
ASCII.  Each regular expression of the two pattern tables is transcribed into
a small AST covering exactly the constructs those regexes use: string
literals, alternations of literals, optional alternations of literals, and a
greedy one-or-more character-class capture group.  The matcher implements
Python `re.search` semantics for these forms: leftmost starting position
first; at a position, alternatives tried left to right and the optional group
tried before being skipped, with full backtracking into the continuation; a
greedy group tries its longest possible run first.
-/

/-- One element of a compiled regular expression. -/
inductive RElem where
  | lit (s : String)
  | altL (ss : List String)
  | optAlt (ss : List String)
  | grpPlus (cls : Char → Bool)

/-- First `some` produced by `f` over the list, in order (backtracking
search). -/
def firstSome {α β : Type} : List α → (α → Option β) → Option β
  | [], _ => none
  | a :: as, f =>
    match f a with
    | some b => some b
    | none => firstSome as f

/-- Match a compiled regex against the start of `cs`, returning the captured
groups in order when it matches. -/
def matchElems : List RElem → List Char → Option (List (List Char))
  | [], _ => some []
  | .lit s :: rest, cs =>
    if s.toList.isPrefixOf cs then matchElems rest (cs.drop s.toList.length)
    else none
  | .altL ss :: rest, cs =>
    firstSome ss (fun a =>
      if a.toList.isPrefixOf cs then matchElems rest (cs.drop a.toList.length)
      else none)
  | .optAlt ss :: rest, cs =>
    match firstSome ss (fun a =>
        if a.toList.isPrefixOf cs then matchElems rest (cs.drop a.toList.length)
        else none) with
    | some r => some r
    | none => matchElems rest cs
  | .grpPlus cls :: rest, cs =>
    let run := cs.takeWhile cls
    firstSome ((List.range run.length).map (fun i => run.length - i)) (fun k =>
      match matchElems rest (cs.drop k) with
      | some caps => some (cs.take k :: caps)
      | none => none)

/-- Python `re.search`: try each starting position from the left. -/
def reSearch (p : List RElem) (cs : List Char) : Option (List (List Char)) :=
  firstSome (List.range (cs.length + 1)) (fun i => matchElems p (cs.drop i))

/-- The character class `.` (any character but a newline). -/
def dotChar (c : Char) : Bool := c != '\n'

/-- The character class `[a-zA-Z0-9_-]`. -/
def fieldChar (c : Char) : Bool :=
  c.isAlpha || c.isDigit || c == '_' || c == '-'

/-- The character class `\w` = `[a-zA-Z0-9_]`. -/
def wordChar (c : Char) : Bool := c.isAlphanum || c == '_'

/-- Python substring test `w in q`. -/
def containsSub (q : List Char) (w : String) : Bool :=
  (List.range (q.length + 1)).any (fun i => w.toList.isPrefixOf (q.drop i))

/-- Python `str.strip()` (ASCII whitespace). -/
def trimChars (cs : List Char) : List Char :=
  ((cs.dropWhile Char.isWhitespace).reverse.dropWhile Char.isWhitespace).reverse

/-- `int(...)` on an all-digits capture. -/
def natOfDigits (cs : List Char) : Nat :=
  cs.foldl (fun n c => n * 10 + (c.toNat - 48)) 0

/-- `HTTPMethod` from src/nlp_agent/models/schemas.py. -/
inductive HTTPMethod where
  | GET
  | POST
  | PUT
  | DELETE
  | PATCH
deriving DecidableEq, Repr

/-- `CLIService` from src/nlp_agent/models/schemas.py. -/
inductive CLIService where
  | CLIO_SERVICE
  | CUSTOM_FIELDS_MANAGER
deriving DecidableEq, Repr

/-- A JSON payload value produced by `_extract_api_payload`: the `limit` key
holds an int, the `status` key a string. -/
inductive PayloadVal where
  | int (n : Nat)
  | str (s : String)
deriving DecidableEq, Repr

/-- `APICall` (schemas.py): the fields populated by the processor; the
response/status/duration fields are absent before execution and never set by
`NLPProcessor`. -/
structure APICall where
  endpoint : String
  method : HTTPMethod
  payload : Option (List (String × PayloadVal))
deriving DecidableEq, Repr

/-- `CLICall` (schemas.py): the fields populated by the processor
(`exit_code = 0` until executed; stdout/stderr/duration never set here). -/
structure CLICall where
  command : CLIService
  args : List String
  exit_code : Int
deriving DecidableEq, Repr

/-- One entry of the `_load_api_patterns` table. -/
structure APIPatternRule where
  name : String
  patterns : List (List RElem)
  endpoint : String
  method : HTTPMethod

/-- One entry of the `_load_cli_patterns` table. -/
structure CLIPatternRule where
  name : String
  patterns : List (List RElem)
  service : CLIService
  command : String

/-- `NLPProcessor._load_api_patterns`, with each regex transcribed into the
AST (all these patterns are plain literals). -/
def load_api_patterns : List APIPatternRule :=
  [ { name := "health",
      patterns := [[.lit "health"], [.lit "status"], [.lit "alive"],
                   [.lit "running"]],
      endpoint := "/health", method := .GET },
    { name := "list_queries",
      patterns := [[.lit "list queries"], [.lit "show queries"],
                   [.lit "get queries"], [.lit "query history"]],
      endpoint := "/queries", method := .GET } ]

/-- `NLPProcessor._load_cli_patterns`; the `clio search (.+)` and
`search clio for (.+)` patterns capture a greedy non-newline run, and the
`create custom field (?:named |called )?([a-zA-Z0-9_-]+)` patterns (and the
`add ...` variants) use the optional alternation plus a greedy word-class
capture. -/
def load_cli_patterns : List CLIPatternRule :=
  [ { name := "clio_list",
      patterns := [[.lit "clio list"], [.lit "list clio"],
                   [.lit "show clio items"]],
      service := .CLIO_SERVICE, command := "list" },
    { name := "clio_search",
      patterns := [[.lit "clio search ", .grpPlus dotChar],
                   [.lit "search clio for ", .grpPlus dotChar]],
      service := .CLIO_SERVICE, command := "search" },
    { name := "custom_fields_list",
      patterns := [[.lit "list custom fields"], [.lit "show custom fields"],
                   [.lit "custom fields list"]],
      service := .CUSTOM_FIELDS_MANAGER, command := "list" },
    { name := "custom_fields_create",
      patterns := [[.lit "create custom field ",
                    .optAlt ["named ", "called "], .grpPlus fieldChar],
                   [.lit "add custom field ",
                    .optAlt ["named ", "called "], .grpPlus fieldChar]],
      service := .CUSTOM_FIELDS_MANAGER, command := "create" } ]

/-- The processor state: the two pattern tables loaded by `__init__` and
never mutated afterwards. -/
structure NLPProcessor where
  api_patterns : List APIPatternRule
  cli_patterns : List CLIPatternRule

/-- `NLPProcessor.__init__`. -/
def NLPProcessor.init : NLPProcessor :=
  ⟨load_api_patterns, load_cli_patterns⟩

/-- `NLPProcessor._extract_api_payload`: only the `list_queries` rule has a
payload extractor; it reads an optional `limit` from
`(?:show|limit|top) (\d+)` and an optional `status` from `status (\w+)`, and
returns `None` when neither matched. -/
def extract_api_payload (query : List Char) (pattern_name : String) :
    Option (List (String × PayloadVal)) :=
  let payload : List (String × PayloadVal) :=
    if pattern_name = "list_queries" then
      (match reSearch [.altL ["show", "limit", "top"], .lit " ",
          .grpPlus Char.isDigit] query with
       | some (g :: _) => [("limit", PayloadVal.int (natOfDigits g))]
       | _ => []) ++
      (match reSearch [.lit "status ", .grpPlus wordChar] query with
       | some (g :: _) => [("status", PayloadVal.str (String.mk g))]
       | _ => [])
    else []
  if payload.isEmpty then none else some payload

/-- `NLPProcessor._match_api_patterns`: first rule in table order whose first
matching pattern fires wins; at most one API call. -/
def NLPProcessor.match_api_patterns (self : NLPProcessor)
    (query : List Char) : Option APICall :=
  firstSome self.api_patterns (fun rule =>
    firstSome rule.patterns (fun p =>
      match reSearch p query with
      | some _ => some { endpoint := rule.endpoint, method := rule.method,
                         payload := extract_api_payload query rule.name }
      | none => none))

/-- `NLPProcessor._match_cli_patterns`: first match wins; captured groups are
stripped and appended after the rule's command as positional arguments. -/
def NLPProcessor.match_cli_patterns (self : NLPProcessor)
    (query : List Char) : Option CLICall :=
  firstSome self.cli_patterns (fun rule =>
    firstSome rule.patterns (fun p =>
      match reSearch p query with
      | some groups =>
        some { command := rule.service,
               args := rule.command ::
                 groups.map (fun g => String.mk (trimChars g)),
               exit_code := 0 }
      | none => none))

/-- `NLPProcessor._extract_intent`: keyword fallback when no table pattern
matched (the `context` argument is accepted but never read by the source). -/
def extract_intent (query : List Char)
    (context : List (String × String)) : List APICall × List CLICall :=
  if ["show", "list", "display", "get"].any
      (fun w => containsSub query w) then
    if containsSub query "query" || containsSub query "queries" then
      ([{ endpoint := "/queries", method := .GET, payload := none }], [])
    else if containsSub query "clio" then
      ([], [{ command := .CLIO_SERVICE, args := ["list"], exit_code := 0 }])
    else if containsSub query "custom field" then
      ([], [{ command := .CUSTOM_FIELDS_MANAGER, args := ["list"],
              exit_code := 0 }])
    else ([], [])
  else if ["create", "add", "new"].any (fun w => containsSub query w) then
    if containsSub query "custom field" then
      let args :=
        match reSearch [.altL ["named ", "called "], .grpPlus fieldChar]
            query with
        | some (g :: _) => ["create", String.mk (trimChars g)]
        | _ => ["create"]
      ([], [{ command := .CUSTOM_FIELDS_MANAGER, args := args,
              exit_code := 0 }])
    else ([], [])
  else ([], [])

/-- `NLPProcessor._calculate_confidence`: 0.1 when no descriptor was
produced; otherwise start at 0.5, add `0.3 / total_patterns` for each
individual pattern matching the query, where `total_patterns` is
`len(self.api_patterns) + len(self.cli_patterns)` — the number of table
ENTRIES (rules), not of individual patterns — add 0.1 when more than one
descriptor was produced, and clamp at 1. -/
def NLPProcessor.calculate_confidence (self : NLPProcessor)
    (query : List Char) (api_calls : List APICall)
    (cli_calls : List CLICall) : ℚ :=
  if api_calls.isEmpty && cli_calls.isEmpty then 1/10
  else
    let total_patterns : Nat :=
      self.api_patterns.length + self.cli_patterns.length
    let rulePatterns : List (List (List RElem)) :=
      self.api_patterns.map (fun r => r.patterns) ++
        self.cli_patterns.map (fun r => r.patterns)
    let confidence : ℚ := rulePatterns.foldl (fun c pats =>
        pats.foldl (fun c p =>
          if (reSearch p query).isSome then
            c + (3 : ℚ)/10 / (total_patterns : ℚ)
          else c) c)
      ((1 : ℚ)/2)
    let confidence2 :=
      if 1 < api_calls.length + cli_calls.length then confidence + 1/10
      else confidence
    min confidence2 1

/-- All individual patterns of both tables, in table order. -/
def NLPProcessor.allPatterns (self : NLPProcessor) : List (List RElem) :=
  (self.api_patterns.map (fun r => r.patterns) ++
    self.cli_patterns.map (fun r => r.patterns)).flatten

/-- Number of individual patterns (both tables) matching the query. -/
def NLPProcessor.matchingPatternCount (self : NLPProcessor)
    (query : List Char) : Nat :=
  (self.allPatterns.filter (fun p => (reSearch p query).isSome)).length

/-- Modelled from claim C7's words, for comparison with the source's
`calculate_confidence` (this is the CLAIM's formula, not the code's): each
matching individual pattern contributes 0.3 divided by the total number of
individual patterns across both tables. -/
def claimedConfidence (self : NLPProcessor) (query : List Char)
    (api_calls : List APICall) (cli_calls : List CLICall) : ℚ :=
  if api_calls.isEmpty && cli_calls.isEmpty then 1/10
  else min ((1 : ℚ)/2 +
    (3 : ℚ)/10 / (self.allPatterns.length : ℚ) *
      (self.matchingPatternCount query : ℚ) +
    (if 1 < api_calls.length + cli_calls.length then (1 : ℚ)/10 else 0)) 1

/-- The fixed phrase `_generate_interpretation` associates with an API call
(none for other endpoints). -/
def api_interp (call : APICall) : Option String :=
  if call.endpoint = "/health" then some "Check system health status"
  else if call.endpoint = "/queries" then some "List processed queries"
  else none

/-- The fixed phrase `_generate_interpretation` associates with a CLI call. -/
def cli_interp (call : CLICall) : Option String :=
  match call.command with
  | .CLIO_SERVICE =>
    if call.args.contains "list" then some "List items from Clio service"
    else if call.args.contains "search" then some "Search Clio service"
    else none
  | .CUSTOM_FIELDS_MANAGER =>
    if call.args.contains "list" then some "List custom fields"
    else if call.args.contains "create" then some "Create a new custom field"
    else none

/-- `NLPProcessor._generate_interpretation`. -/
def generate_interpretation (api_calls : List APICall)
    (cli_calls : List CLICall) : String :=
  let interpretations :=
    api_calls.filterMap api_interp ++ cli_calls.filterMap cli_interp
  if interpretations.isEmpty then "No specific action identified"
  else String.intercalate "; " interpretations

/-- `NLPProcessor._generate_suggestions`. -/
def generate_suggestions (api_calls : List APICall)
    (cli_calls : List CLICall) : List String :=
  if api_calls.isEmpty && cli_calls.isEmpty then
    ["Try asking to \x27list queries\x27 or \x27show health status\x27",
     "Use \x27clio list\x27 to see Clio items",
     "Ask to \x27list custom fields\x27 to see available fields"]
  else
    ["You can add filters like \x27status completed\x27 for query lists",
     "Use specific field names when creating custom fields",
     "Check the health endpoint to verify system status"]

/-- `len(query.split())`: whitespace-delimited token count. -/
def tokensOf (query : String) : Nat :=
  ((query.toList.splitOnP Char.isWhitespace).filter
    (fun w => ¬ w.isEmpty)).length

/-- The `result` sub-object of the processor's output. -/
structure QueryResult where
  query : String
  interpretation : String
  suggested_actions : List String
deriving DecidableEq, Repr

/-- The full output of `NLPProcessor.process_query`. -/
structure ProcessOutput where
  result : QueryResult
  api_calls : List APICall
  cli_calls : List CLICall
  confidence_score : ℚ
  tokens_used : Nat
deriving DecidableEq, Repr

/-- `NLPProcessor.process_query`, with the method's (never-mutated) `self`
threaded explicitly: lowercase and strip the query, match the API table, then
the CLI table; if neither matched, fall back to keyword intent extraction;
compute the confidence and assemble the output.  The returned state is the
unchanged `self` — the source method only reads `self`. -/
def NLPProcessor.process_query (self : NLPProcessor) (query : String)
    (context : List (String × String)) (options : List (String × String)) :
    ProcessOutput × NLPProcessor :=
  let query_lower := trimChars (query.toList.map Char.toLower)
  let api_calls : List APICall :=
    match self.match_api_patterns query_lower with
    | some c => [c]
    | none => []
  let cli_calls : List CLICall :=
    match self.match_cli_patterns query_lower with
    | some c => [c]
    | none => []
  let calls :=
    if api_calls.isEmpty && cli_calls.isEmpty then
      let intent := extract_intent query_lower context
      (api_calls ++ intent.1, cli_calls ++ intent.2)
    else (api_calls, cli_calls)
  let confidence_score :=
    self.calculate_confidence query_lower calls.1 calls.2
  ({ result := { query := query,
                 interpretation := generate_interpretation calls.1 calls.2,
                 suggested_actions := generate_suggestions calls.1 calls.2 },
     api_calls := calls.1,
     cli_calls := calls.2,
     confidence_score := confidence_score,
     tokens_used := tokensOf query }, self)

/-- Backoff lists glue: prepending the backoff of the current attempt to the
backoffs of the remaining attempts. -/
theorem pow_cons_range (a f : Nat) :
    2 ^ a :: (List.range f).map (fun i => 2 ^ (a + 1 + i)) =
      (List.range (f + 1)).map (fun i => 2 ^ (a + i)) := by
  rw [List.range_succ_eq_map, List.map_cons, List.map_map]
  congr 1
  apply List.map_congr_left
  intro i _
  show 2 ^ (a + 1 + i) = 2 ^ (a + (i + 1))
  congr 1
  omega

/-- On a server that always answers HTTP 503, the loop raises the status error
at its last iteration and backs off `2 ^ attempt` seconds between attempts. -/
theorem requestGo_const503 (R : Nat) :
    ∀ fuel attempt, attempt + fuel = R + 1 → 1 ≤ fuel →
    requestGo (fun _ => .resp 503 none) R attempt fuel =
      ⟨.raised (.httpStatusError 503), fuel, fuel,
        (List.range (fuel - 1)).map (fun i => 2 ^ (attempt + i))⟩ := by
  intro fuel
  induction fuel with
  | zero => intro attempt _ h1; omega
  | succ f ih =>
    intro attempt hsum _
    match f, ih with
    | 0, _ =>
      have hR : ¬ attempt < R := by omega
      simp [requestGo, hR]
    | g + 1, ih =>
      have hR : attempt < R := by omega
      have hrec := ih (attempt + 1) (by omega) (by omega)
      have hstep : requestGo (fun _ => .resp 503 none) R attempt (g + 1 + 1) =
          (if attempt < R ∧ 500 ≤ 503 then
            let t := requestGo (fun _ => .resp 503 none) R (attempt + 1) (g + 1)
            ⟨t.outcome, t.attempts + 1, t.gateChecks + 1, 2 ^ attempt :: t.sleeps⟩
          else ⟨.raised (.httpStatusError 503), 1, 1, []⟩) := rfl
      rw [hstep, if_pos ⟨hR, by norm_num⟩, hrec]
      have hl := pow_cons_range attempt g
      simp [hl]

/-- On a server that always answers 429 with a Retry-After header, every
iteration sleeps the Retry-After value and continues, so the loop consumes all
its iterations and ends with the max-retries error. -/
theorem requestGo_const429 (R n : Nat) :
    ∀ fuel attempt,
    requestGo (fun _ => .resp 429 (some n)) R attempt fuel =
      ⟨.raised .httpError, fuel, fuel, List.replicate fuel n⟩ := by
  intro fuel
  induction fuel with
  | zero => intro attempt; rfl
  | succ f ih =>
    intro attempt
    simp [requestGo, ih (attempt + 1), List.replicate_succ]

/-- C4: for every R, calling `ClioAPIClient.request` with `max_retries = R`
against a server answering HTTP 503 on every attempt makes exactly R+1 HTTP
attempts, sleeping `2 ^ attempt` seconds between consecutive attempts, and then
raises (via `raise_for_status` at the final attempt). -/
theorem C4_request_always_503 (R : Nat) :
    request (some "token") (fun _ => .resp 503 none) R =
      ⟨.raised (.httpStatusError 503), R + 1, R + 1,
        (List.range R).map (fun i => 2 ^ i)⟩ := by
  have h := requestGo_const503 R (R + 1) 0 (by omega) (by omega)
  simp only [request]
  rw [h]
  simp

/-- C2 counterexample: with `max_retries = 0` and a server always answering
429 with `Retry-After: 7`, the client sleeps the 7 seconds but makes only one
attempt and then raises the max-retries error: the 429 retry consumed the only
loop iteration, so it does count toward the `max_retries` bound, contrary to
the claim that a retry follows every 429-with-Retry-After response and that the
bound applies only to server-error/transport-error retries. -/
theorem C2_counterexample :
    (request (some "token") (fun _ => .resp 429 (some 7)) 0).sleeps = [7] ∧
    (request (some "token") (fun _ => .resp 429 (some 7)) 0).attempts = 1 ∧
    (request (some "token") (fun _ => .resp 429 (some 7)) 0).outcome =
      .raised .httpError := by
  refine ⟨rfl, rfl, rfl⟩

/-- C2 amended: on a 429 response carrying `Retry-After: n` the client sleeps
n seconds and retries, but such retries do count toward `max_retries`: with
`max_retries = R`, a server that always answers 429-with-Retry-After yields
exactly R+1 attempts, R+1 sleeps of n seconds, and then the max-retries
error. -/
theorem C2_amended_429_counts_toward_retries (R n : Nat) :
    request (some "token") (fun _ => .resp 429 (some n)) R =
      ⟨.raised .httpError, R + 1, R + 1, List.replicate (R + 1) n⟩ := by
  simp only [request]
  exact requestGo_const429 R n (R + 1) 0

/-- C3 counterexample: with `max_retries = 3` and a server always answering
HTTP 429 without a Retry-After header, the client makes exactly one attempt,
performs no backoff sleep, and raises the 429 status error immediately — not
the 4 attempts the claim's retry-with-backoff treatment would produce. -/
theorem C3_counterexample :
    (request (some "token") (fun _ => .resp 429 none) 3).attempts = 1 ∧
    (request (some "token") (fun _ => .resp 429 none) 3).attempts ≠ 3 + 1 ∧
    (request (some "token") (fun _ => .resp 429 none) 3).sleeps = [] ∧
    (request (some "token") (fun _ => .resp 429 none) 3).outcome =
      .raised (.httpStatusError 429) := by
  refine ⟨rfl, by decide, rfl, rfl⟩

/-- C3 amended: an HTTP 429 response carrying no Retry-After value is raised
immediately by `raise_for_status` like a non-retriable client error (one
attempt, no backoff, no retry), for every `max_retries` bound. -/
theorem C3_amended_429_without_header_raises (server : Nat → AttemptResp)
    (R : Nat) (h : server 0 = .resp 429 none) :
    request (some "token") server R =
      ⟨.raised (.httpStatusError 429), 1, 1, []⟩ := by
  simp [request, requestGo, h]

/-- C3 amended witness at a concrete server and `max_retries = 2`. -/
theorem C3_amended_witness :
    ((fun _ => AttemptResp.resp 429 none) 0 = AttemptResp.resp 429 none) ∧
    request (some "token") (fun _ => .resp 429 none) 2 =
      ⟨.raised (.httpStatusError 429), 1, 1, []⟩ :=
  ⟨rfl, C3_amended_429_without_header_raises (fun _ => .resp 429 none) 2 rfl⟩

/-- C5: when no authentication token is set, `ClioAPIClient.request` fails
immediately with the configuration error (the `ValueError` raised at the top of
the method): zero rate-gate waits, zero HTTP attempts, zero sleeps, for every
server behaviour and every `max_retries` value — the failure is never
retried. -/
theorem C5_missing_token_fails_immediately (server : Nat → AttemptResp)
    (R : Nat) :
    request none server R = ⟨.raised .valueError, 0, 0, []⟩ := rfl

/-- Filtering with a stronger predicate keeps at most as many elements. -/
theorem filter_length_mono {α : Type} (p q : α → Bool)
    (h : ∀ a, p a = true → q a = true) :
    ∀ l : List α, (l.filter p).length ≤ (l.filter q).length := by
  intro l
  induction l with
  | nil => simp
  | cons a as ih =>
    cases hp : p a with
    | true =>
      have hq := h a hp
      simp only [List.filter_cons, hp, hq, if_true, List.length_cons]
      omega
    | false =>
      cases hq : q a with
      | true =>
        simp only [List.filter_cons, hp, hq, if_true, Bool.false_eq_true,
          if_false, List.length_cons]
        omega
      | false =>
        simp only [List.filter_cons, hp, hq, Bool.false_eq_true, if_false]
        exact ih

/-- Filtering a list that contains an element failing the predicate strictly
shrinks it. -/
theorem filter_length_lt_of_mem {α : Type} (p : α → Bool) (x : α) :
    ∀ l : List α, x ∈ l → p x = false → (l.filter p).length < l.length := by
  intro l
  induction l with
  | nil => intro h; cases h
  | cons a as ih =>
    intro hmem hx
    rcases List.mem_cons.mp hmem with rfl | hmem2
    · simp only [List.filter_cons, hx, Bool.false_eq_true, if_false,
        List.length_cons]
      have := List.length_filter_le p as
      omega
    · cases hp : p a with
      | true =>
        simp only [List.filter_cons, hp, if_true, List.length_cons]
        have := ih hmem2 hx
        omega
      | false =>
        simp only [List.filter_cons, hp, Bool.false_eq_true, if_false,
          List.length_cons]
        have := ih hmem2 hx
        omega

/-- Filtering by a stronger predicate ignores an earlier filtering by a weaker
one. -/
theorem filter_filter_absorb {α : Type} (p q : α → Bool)
    (h : ∀ a, p a = true → q a = true) :
    ∀ l : List α, (l.filter q).filter p = l.filter p := by
  intro l
  induction l with
  | nil => rfl
  | cons a as ih =>
    cases hq : q a with
    | true =>
      cases hp : p a with
      | true => simp [List.filter_cons, hp, hq, ih]
      | false => simp [List.filter_cons, hp, hq, ih]
    | false =>
      have hp : p a = false := by
        cases hpa : p a with
        | false => rfl
        | true => rw [h a hpa] at hq; cases hq
      simp [List.filter_cons, hp, hq, ih]

/-- The limit-check sleep is never negative when every list entry is inside
the window. -/
theorem sleepOf_nonneg (cap : Nat) (window now : ℚ) (l : List ℚ)
    (h : ∀ t ∈ l, now - window < t) : 0 ≤ sleepOf cap window l now := by
  cases l with
  | nil => simp [sleepOf]
  | cons t0 rest =>
    by_cases hc : cap ≤ (t0 :: rest).length
    · have ht := h t0 (List.mem_cons_self t0 rest)
      simp only [sleepOf, hc, if_true, List.head?_cons]
      linarith
    · have hc2 : ¬ cap ≤ rest.length + 1 := by simpa using hc
      simp [sleepOf, hc2]

/-- When the window is full, sleeping makes the call finish exactly when the
oldest recorded entry ages out of the window. -/
theorem sleepOf_over_cap (cap : Nat) (window now t0 : ℚ) (rest : List ℚ)
    (hc : cap ≤ (t0 :: rest).length) :
    now + sleepOf cap window (t0 :: rest) now = t0 + window := by
  simp only [sleepOf, hc, if_true, List.head?_cons]
  ring

/-- One call to `wait_if_needed` under the between-calls invariant: the check
itself observes at most `ph` entries in the pruned (trailing hour) list and at
most `pm` in the trailing-minute list, the call completes no earlier than its
`now`, and the invariant is re-established at the completion time. -/
theorem wait_if_needed_step (pm ph : Nat) (hm : 1 ≤ pm) (hh : 1 ≤ ph)
    (times : List ℚ) (tPrev now : ℚ)
    (hinv : RLInv pm ph times tPrev) (hnow : tPrev ≤ now) :
    (times.filter (fun t => now - 3600 < t)).length ≤ ph ∧
    ((times.filter (fun t => now - 3600 < t)).filter
        (fun t => now - 60 < t)).length ≤ pm ∧
    now ≤ (wait_if_needed pm ph times now).1 ∧
    RLInv pm ph (wait_if_needed pm ph times now).2
      (wait_if_needed pm ph times now).1 := by
  obtain ⟨hb, hH, hM⟩ := hinv
  set pruned := times.filter (fun t => now - 3600 < t) with hprunedDef
  set recent := pruned.filter (fun t => now - 60 < t) with hrecentDef
  set s1 := sleepOf ph 3600 pruned now with hs1Def
  set s2 := sleepOf pm 60 recent now with hs2Def
  have hc1 : (wait_if_needed pm ph times now).1 = now + s1 + s2 := rfl
  have hc2 : (wait_if_needed pm ph times now).2 = pruned ++ [now] := rfl
  have hA : pruned.length ≤ ph := by
    refine le_trans ?_ hH
    rw [hprunedDef]
    apply filter_length_mono
    intro a ha
    simp only [decide_eq_true_eq] at ha ⊢
    linarith
  have hB : recent.length ≤ pm := by
    rw [hrecentDef, hprunedDef, List.filter_filter]
    refine le_trans ?_ hM
    apply filter_length_mono
    intro a ha
    simp only [Bool.and_eq_true, decide_eq_true_eq] at ha
    simp only [decide_eq_true_eq]
    linarith [ha.2]
  have htimes : ∀ t ∈ pruned, t ∈ times := by
    intro t ht
    rw [hprunedDef] at ht
    exact (List.mem_filter.mp ht).1
  have hprunedSub : ∀ t ∈ pruned, now - 3600 < t := by
    intro t ht
    rw [hprunedDef] at ht
    have h2 := (List.mem_filter.mp ht).2
    simpa using h2
  have hrecentSub : ∀ t ∈ recent, now - 60 < t := by
    intro t ht
    rw [hrecentDef] at ht
    have h2 := (List.mem_filter.mp ht).2
    simpa using h2
  have hs1n : 0 ≤ s1 := by
    rw [hs1Def]; exact sleepOf_nonneg _ _ _ _ hprunedSub
  have hs2n : 0 ≤ s2 := by
    rw [hs2Def]; exact sleepOf_nonneg _ _ _ _ hrecentSub
  have hcomp : now ≤ (wait_if_needed pm ph times now).1 := by
    rw [hc1]; linarith
  refine ⟨hA, hB, hcomp, ?_, ?_, ?_⟩
  · -- every recorded entry is in the past at completion time
    rw [hc1, hc2]
    intro t ht
    rcases List.mem_append.mp ht with h1 | h2
    · have := hb t (htimes t h1)
      linarith
    · have ht2 : t = now := by simpa using h2
      rw [ht2]
      linarith
  · -- trailing-hour count at completion time stays within the hourly cap
    rw [hc1, hc2, List.filter_append, List.length_append]
    have hsingle : ([now].filter
        (fun t => decide (now + s1 + s2 - 3600 < t))).length ≤ 1 := by
      have h0 := List.length_filter_le
        (fun t => decide (now + s1 + s2 - 3600 < t)) [now]
      simpa using h0
    by_cases hover : ph ≤ pruned.length
    · obtain ⟨t0, rest, hp⟩ : ∃ t0 rest, pruned = t0 :: rest := by
        cases hq : pruned with
        | nil => rw [hq] at hover; simp at hover; omega
        | cons a as => exact ⟨a, as, rfl⟩
      have hfull : now + s1 = t0 + 3600 := by
        rw [hs1Def, hp]
        exact sleepOf_over_cap ph 3600 now t0 rest (hp ▸ hover)
      have ht0false : (decide (now + s1 + s2 - 3600 < t0)) = false := by
        simp only [decide_eq_false_iff_not, not_lt]
        linarith
      have hlt : (pruned.filter
          (fun t => decide (now + s1 + s2 - 3600 < t))).length < pruned.length := by
        apply filter_length_lt_of_mem _ t0 _ _ ht0false
        rw [hp]; exact List.mem_cons_self _ _
      have hsl := List.length_filter_le
        (fun t => decide (now + s1 + s2 - 3600 < t)) pruned
      omega
    · have hle := List.length_filter_le
        (fun t => decide (now + s1 + s2 - 3600 < t)) pruned
      omega
  · -- trailing-minute count at completion time stays within the minute cap
    rw [hc1, hc2, List.filter_append, List.length_append]
    have hsingle : ([now].filter
        (fun t => decide (now + s1 + s2 - 60 < t))).length ≤ 1 := by
      have h0 := List.length_filter_le
        (fun t => decide (now + s1 + s2 - 60 < t)) [now]
      simpa using h0
    have himp : ∀ a : ℚ, decide (now + s1 + s2 - 60 < a) = true →
        decide (now - 60 < a) = true := by
      intro a ha
      simp only [decide_eq_true_eq] at ha ⊢
      linarith
    have heqf : pruned.filter (fun t => decide (now + s1 + s2 - 60 < t))
        = recent.filter (fun t => decide (now + s1 + s2 - 60 < t)) := by
      rw [hrecentDef]
      exact (filter_filter_absorb _ _ himp pruned).symm
    by_cases hover : pm ≤ recent.length
    · obtain ⟨r0, rrest, hr⟩ : ∃ r0 rrest, recent = r0 :: rrest := by
        cases hq : recent with
        | nil => rw [hq] at hover; simp at hover; omega
        | cons a as => exact ⟨a, as, rfl⟩
      have hfull : now + s2 = r0 + 60 := by
        rw [hs2Def, hr]
        exact sleepOf_over_cap pm 60 now r0 rrest (hr ▸ hover)
      have hr0false : (decide (now + s1 + s2 - 60 < r0)) = false := by
        simp only [decide_eq_false_iff_not, not_lt]
        linarith
      have hlt : (recent.filter
          (fun t => decide (now + s1 + s2 - 60 < t))).length < recent.length := by
        apply filter_length_lt_of_mem _ r0 _ _ hr0false
        rw [hr]; exact List.mem_cons_self _ _
      rw [heqf]
      omega
    · have hle : (pruned.filter
          (fun t => decide (now + s1 + s2 - 60 < t))).length ≤ recent.length := by
        rw [hrecentDef]
        exact filter_length_mono _ _ himp pruned
      omega

/-- Along any serialized sequence of `wait_if_needed` calls starting from a
state satisfying the invariant, every check sees at most `ph` recorded entries
in the trailing hour and at most `pm` in the trailing minute. -/
theorem runCalls_checks_bounded (pm ph : Nat) (hm : 1 ≤ pm) (hh : 1 ≤ ph) :
    ∀ (delays times : List ℚ) (tPrev : ℚ),
      (∀ d ∈ delays, 0 ≤ d) → RLInv pm ph times tPrev →
      ∀ e ∈ runCalls pm ph times tPrev delays, e.2.1 ≤ ph ∧ e.2.2 ≤ pm := by
  intro delays
  induction delays with
  | nil =>
    intro times tPrev _ _ e he
    simp [runCalls] at he
  | cons d ds ih =>
    intro times tPrev hd hinv e he
    have hd0 : 0 ≤ d := hd d (List.mem_cons_self _ _)
    have hnow : tPrev ≤ tPrev + d := by linarith
    obtain ⟨hA, hB, _, hinv2⟩ :=
      wait_if_needed_step pm ph hm hh times tPrev (tPrev + d) hinv hnow
    simp only [runCalls] at he
    rcases List.mem_cons.mp he with rfl | he2
    · exact ⟨hA, hB⟩
    · exact ih _ _ (fun x hx => hd x (List.mem_cons_of_mem _ hx)) hinv2 e he2

/-- C1 counterexample: with `requests_per_minute = 1` (and the default hourly
cap), three serialized calls whose `now` times are 0, 10 and 60 complete at
times 0, 60 and 70: the completions at 60 and 70 both fall inside the rolling
60-second window (10, 70], so two requests complete the rate-gate check within
one rolling minute although the per-minute cap is 1.  The limiter records each
call's pre-sleep `now`, not its completion time, so the claimed rolling-window
bound on completed checks does not hold. -/
theorem C1_counterexample :
    (∀ d ∈ ([0, 10, 0] : List ℚ), 0 ≤ d) ∧
    (runCalls 1 10000 [] 0 [0, 10, 0]).map Prod.fst = [0, 60, 70] ∧
    1 < (((runCalls 1 10000 [] 0 [0, 10, 0]).map Prod.fst).filter
          (fun c => decide (10 < c) && decide (c ≤ 10 + 60))).length := by
  refine ⟨by norm_num, ?_, ?_⟩ <;>
    norm_num [runCalls, wait_if_needed, sleepOf, List.filter]

/-- C1 amended: the bound the code actually maintains is on the recorded
timestamps, not on completion times: at every rate-gate check (for caps ≥ 1,
calls serialized by the lock, each call's `now` at least the previous
completion), the pruned `request_times` list holds at most
`requests_per_hour` entries and its trailing-minute part at most
`requests_per_minute` entries; entries older than 3600 seconds are pruned
before each check (they are dropped from `request_times` by construction in
`wait_if_needed`).  The rolling-window bound on completed checks fails because
the appended timestamp is the pre-sleep `now`. -/
theorem C1_amended_recorded_checks_bounded (pm ph : Nat) (delays : List ℚ)
    (hm : 1 ≤ pm) (hh : 1 ≤ ph) (hd : ∀ d ∈ delays, 0 ≤ d) :
    ∀ e ∈ runCalls pm ph [] 0 delays, e.2.1 ≤ ph ∧ e.2.2 ≤ pm := by
  apply runCalls_checks_bounded pm ph hm hh delays [] 0 hd
  refine ⟨by simp, by simp, by simp⟩

/-- C1 amended witness: a concrete two-call trace with both caps 1. -/
theorem C1_amended_witness :
    ((0 : ℚ), (0 : Nat), (0 : Nat)) ∈ runCalls 1 1 [] 0 [0] ∧
    ((0 : ℚ), (0 : Nat), (0 : Nat)).2.1 ≤ 1 ∧
    ((0 : ℚ), (0 : Nat), (0 : Nat)).2.2 ≤ 1 :=
  ⟨by norm_num [runCalls, wait_if_needed, sleepOf, List.filter],
   C1_amended_recorded_checks_bounded 1 1 [0] (by norm_num) (by norm_num)
     (by norm_num) ((0 : ℚ), (0 : Nat), (0 : Nat))
     (by norm_num [runCalls, wait_if_needed, sleepOf, List.filter])⟩

/-- Overwriting the same key twice keeps only the last value. -/
theorem setParam_setParam (k : String) (v1 v2 : Nat) :
    ∀ l, setParam k v2 (setParam k v1 l) = setParam k v2 l := by
  intro l
  induction l with
  | nil => simp [setParam]
  | cons kv rest ih =>
    obtain ⟨k2, u⟩ := kv
    by_cases hk : k2 = k
    · subst hk
      simp [setParam]
    · simp [setParam, hk, ih]

/-- A two-page walk: page 1 has items and a next marker, page 2 has items and
no next marker. -/
theorem paginatedGo_two_pages {α : Type} (server : Nat → PageResp α)
    (p1 p2 : List α) (params : List (String × Nat)) (f : Nat)
    (h1 : server 1 = ⟨.dataList p1, true⟩)
    (h2 : server 2 = ⟨.dataList p2, false⟩)
    (hp1 : p1 ≠ []) (hp2 : p2 ≠ []) :
    paginatedGo server (f + 2) 1 params =
      ⟨p1 ++ p2, 2, setParam "page" 2 (setParam "page" 1 params)⟩ := by
  obtain ⟨a1, as1, rfl⟩ : ∃ a l, p1 = a :: l := by
    cases p1 with
    | nil => exact absurd rfl hp1
    | cons a l => exact ⟨a, l, rfl⟩
  obtain ⟨a2, as2, rfl⟩ : ∃ a l, p2 = a :: l := by
    cases p2 with
    | nil => exact absurd rfl hp2
    | cons a l => exact ⟨a, l, rfl⟩
  simp [paginatedGo, h1, h2, RespData.items]

/-- At every page the loop writes the page number into the caller's mapping;
with positive fuel the final mapping holds `page = n` for the last page
visited (n ≥ the starting page). -/
theorem paginatedGo_finalParams {α : Type} (server : Nat → PageResp α) :
    ∀ (fuel page : Nat) (params : List (String × Nat)), 1 ≤ fuel →
    ∃ n, page ≤ n ∧ (paginatedGo server fuel page params).finalParams =
      setParam "page" n params := by
  intro fuel
  induction fuel with
  | zero => intro page params h; omega
  | succ f ih =>
    intro page params _
    match f, ih with
    | 0, _ =>
      refine ⟨page, le_refl page, ?_⟩
      simp only [paginatedGo]
      split
      · rfl
      · split
        · rfl
        · rfl
    | g + 1, ih =>
      have hstep : paginatedGo server (g + 1 + 1) page params =
          (let params2 := setParam "page" page params
           let resp := server page
           let items := resp.data.items
           if items.isEmpty then ⟨[], 1, params2⟩
           else if resp.hasNext then
             let t := paginatedGo server (g + 1) (page + 1) params2
             ⟨items ++ t.items, t.requests + 1, t.finalParams⟩
           else ⟨items, 1, params2⟩) := rfl
      rw [hstep]
      by_cases hempty : (server page).data.items.isEmpty
      · exact ⟨page, le_refl page, by simp [hempty]⟩
      · by_cases hnext : (server page).hasNext
        · obtain ⟨n, hn, hfin⟩ := ih (page + 1) (setParam "page" page params)
            (by omega)
          refine ⟨n, by omega, ?_⟩
          simp [hempty, hnext, hfin, setParam_setParam]
        · exact ⟨page, le_refl page, by simp [hempty, hnext]⟩

/-- C6: for an endpoint returning exactly two pages (next marker present on
page 1, absent on page 2, both `data` arrays non-empty), `get_all` returns
page 1's items followed by page 2's items in server order, and exactly two
page requests are made. -/
theorem C6_get_all_two_pages {α : Type} (server : Nat → PageResp α)
    (p1 p2 : List α) (params : List (String × Nat)) (per_page fuel : Nat)
    (h1 : server 1 = ⟨.dataList p1, true⟩)
    (h2 : server 2 = ⟨.dataList p2, false⟩)
    (hp1 : p1 ≠ []) (hp2 : p2 ≠ []) (hfuel : 2 ≤ fuel) :
    get_all server params per_page fuel = (p1 ++ p2, 2) := by
  obtain ⟨f, rfl⟩ : ∃ f, fuel = f + 2 := ⟨fuel - 2, by omega⟩
  have h := paginatedGo_two_pages server p1 p2
    (setParam "per_page" (min per_page 200) params) f h1 h2 hp1 hp2
  simp [get_all, paginated_request, h]

/-- C6 witness: a concrete two-page server with items 1,2 then 3. -/
theorem C6_witness :
    get_all (fun p => if p = 1 then ⟨.dataList [1, 2], true⟩
        else ⟨.dataList [(3 : Nat)], false⟩) [] 50 2 = ([1, 2] ++ [3], 2) :=
  C6_get_all_two_pages _ [1, 2] [3] [] 50 2 rfl rfl (by decide) (by decide)
    (by norm_num)

/-- C10 counterexample: when the caller's mapping already holds exactly the
values the walk writes (here a one-page endpoint, `per_page = 50`, and params
`per_page = 50, page = 1`), the mapping after the call equals the mapping
before it — so the claim that the caller's params object is never left
unchanged fails; the writes do happen but need not change the mapping. -/
theorem C10_counterexample :
    (paginated_request (fun _ => ⟨.dataList [(5 : Nat)], false⟩)
        [("per_page", 50), ("page", 1)] 50 5).finalParams =
      [("per_page", 50), ("page", 1)] := rfl

/-- C10 amended: `paginated_request` does write into the caller's mapping —
after any call with positive fuel the mapping holds
`per_page = min(per_page, 200)` and `page = n` for the last page visited
(n ≥ 1) — but the mapping is left unchanged in the corner case where it
already contained exactly those values. -/
theorem C10_amended_params_written {α : Type} (server : Nat → PageResp α)
    (params : List (String × Nat)) (per_page fuel : Nat) (hfuel : 1 ≤ fuel) :
    ∃ n, 1 ≤ n ∧ (paginated_request server params per_page fuel).finalParams =
      setParam "page" n (setParam "per_page" (min per_page 200) params) :=
  paginatedGo_finalParams server fuel 1 _ hfuel

/-- C10 amended witness at a concrete one-page server. -/
theorem C10_amended_witness :
    ∃ n, 1 ≤ n ∧
      (paginated_request (fun _ => PageResp.mk (.dataList [(3 : Nat)]) false)
          [] 7 3).finalParams =
        setParam "page" n (setParam "per_page" (min 7 200) []) :=
  C10_amended_params_written _ [] 7 3 (by norm_num)

/-- The inner confidence loop adds the increment once per matching pattern. -/
theorem foldl_conf_count (inc : ℚ) (query : List Char) :
    ∀ (pats : List (List RElem)) (c : ℚ),
      pats.foldl (fun c p =>
          if (reSearch p query).isSome then c + inc else c) c
        = c + inc *
          ((pats.filter (fun p => (reSearch p query).isSome)).length : ℚ) := by
  intro pats
  induction pats with
  | nil => intro c; simp
  | cons p ps ih =>
    intro c
    cases hq : (reSearch p query).isSome with
    | true =>
      simp only [List.foldl_cons, List.filter_cons, hq, if_true, ih,
        List.length_cons]
      push_cast
      ring
    | false =>
      simp only [List.foldl_cons, List.filter_cons, hq, Bool.false_eq_true,
        if_false, ih]

/-- The nested confidence loop (rules, then their patterns) adds the
increment once per matching individual pattern across all rules. -/
theorem foldl_conf_count_nested (inc : ℚ) (query : List Char) :
    ∀ (rules : List (List (List RElem))) (c : ℚ),
      rules.foldl (fun c pats =>
          pats.foldl (fun c p =>
            if (reSearch p query).isSome then c + inc else c) c) c
        = c + inc *
          ((rules.flatten.filter
            (fun p => (reSearch p query).isSome)).length : ℚ) := by
  intro rules
  induction rules with
  | nil => intro c; simp
  | cons pats rest ih =>
    intro c
    rw [List.foldl_cons, foldl_conf_count, ih, List.flatten_cons,
      List.filter_append, List.length_append]
    push_cast
    ring

/-- Closed form of `_calculate_confidence`: the divisor of the 0.3 increment
is the number of table entries (rules), and each matching individual pattern
adds one increment. -/
theorem calculate_confidence_closed (self : NLPProcessor) (query : List Char)
    (api_calls : List APICall) (cli_calls : List CLICall) :
    self.calculate_confidence query api_calls cli_calls =
      if api_calls.isEmpty && cli_calls.isEmpty then 1/10
      else min ((1 : ℚ)/2 +
        (3 : ℚ)/10 /
          ((self.api_patterns.length + self.cli_patterns.length : Nat) : ℚ) *
          (self.matchingPatternCount query : ℚ) +
        (if 1 < api_calls.length + cli_calls.length then (1 : ℚ)/10 else 0))
        1 := by
  unfold NLPProcessor.calculate_confidence NLPProcessor.matchingPatternCount
    NLPProcessor.allPatterns
  cases hempty : (api_calls.isEmpty && cli_calls.isEmpty) with
  | true => simp [hempty]
  | false =>
    simp only [Bool.false_eq_true, if_false, foldl_conf_count_nested]
    cases hb : decide (1 < api_calls.length + cli_calls.length) with
    | true =>
      simp only [decide_eq_true_eq] at hb
      simp only [hb, if_true]
    | false =>
      simp only [decide_eq_false_iff_not] at hb
      simp only [hb, if_false]
      ring_nf

/-- C7 counterexample: for the query "health" (one API descriptor, exactly one
matching individual pattern), the source computes confidence
0.5 + 0.3/6 = 11/20, dividing by the number of table entries
(2 API rules + 4 CLI rules), while the claim's formula divides by the total
number of individual patterns (8 + 10 = 18) and predicts
0.5 + 0.3/18 = 31/60; the two values differ. -/
theorem C7_counterexample :
    (NLPProcessor.init.process_query "health" [] []).1.confidence_score
      = 11/20 ∧
    claimedConfidence NLPProcessor.init "health".toList
      (NLPProcessor.init.process_query "health" [] []).1.api_calls
      (NLPProcessor.init.process_query "health" [] []).1.cli_calls
      = 31/60 ∧
    ((11 : ℚ)/20 ≠ 31/60) := by
  have hapi : (NLPProcessor.init.process_query "health" [] []).1.api_calls =
      [{ endpoint := "/health", method := .GET, payload := none }] := by
    decide
  have hcli : (NLPProcessor.init.process_query "health" [] []).1.cli_calls =
      [] := by decide
  have hcount : NLPProcessor.init.matchingPatternCount "health".toList
      = 1 := by decide
  have hlen : NLPProcessor.init.api_patterns.length +
      NLPProcessor.init.cli_patterns.length = 6 := by decide
  have hall : NLPProcessor.init.allPatterns.length = 18 := by decide
  have hscore :
      (NLPProcessor.init.process_query "health" [] []).1.confidence_score =
      NLPProcessor.init.calculate_confidence "health".toList
        [{ endpoint := "/health", method := .GET, payload := none }] [] := rfl
  refine ⟨?_, ?_, by norm_num⟩
  · rw [hscore, calculate_confidence_closed, hcount, hlen]
    norm_num [min_def]
  · rw [hapi, hcli]
    simp only [claimedConfidence, hcount, hall]
    norm_num [min_def]

/-- C7 amended: with the shipped tables, the confidence is 0.1 with no
descriptors, and otherwise 0.5 plus 0.3/6 — 0.3 divided by the number of
TABLE ENTRIES (2 API rules + 4 CLI rules), not by the number of individual
patterns (18) — for each individual pattern (both tables combined) matching
the lowercased query, plus 0.1 when more than one descriptor was produced,
clamped above at 1. -/
theorem C7_amended_confidence_formula (query : List Char)
    (api_calls : List APICall) (cli_calls : List CLICall) :
    NLPProcessor.init.calculate_confidence query api_calls cli_calls =
      if api_calls.isEmpty && cli_calls.isEmpty then 1/10
      else min ((1 : ℚ)/2 +
        (3 : ℚ)/10 / 6 *
          (NLPProcessor.init.matchingPatternCount query : ℚ) +
        (if 1 < api_calls.length + cli_calls.length then (1 : ℚ)/10 else 0))
        1 := by
  rw [calculate_confidence_closed]
  have hlen : NLPProcessor.init.api_patterns.length +
      NLPProcessor.init.cli_patterns.length = 6 := by decide
  rw [hlen]
  norm_num

/-- C8: the query "create custom field named test_field" produces no API
descriptor and exactly one CLI descriptor targeting the custom-fields manager
with argument list ["create", "test_field"] — "create" preceding
"test_field". -/
theorem C8_create_custom_field_query :
    (NLPProcessor.init.process_query
        "create custom field named test_field" [] []).1.api_calls = [] ∧
    (NLPProcessor.init.process_query
        "create custom field named test_field" [] []).1.cli_calls =
      [{ command := .CUSTOM_FIELDS_MANAGER,
         args := ["create", "test_field"], exit_code := 0 }] := by
  exact ⟨by decide, by decide⟩

/-- C9: `process_query` is deterministic and keeps no hidden mutable state:
for any processor state (pattern tables), query, context and options, running
the call twice in sequence yields identical outputs, and the state after a
call is the state before it — the method only reads `self`. -/
theorem C9_process_query_deterministic (self : NLPProcessor) (query : String)
    (context options : List (String × String)) :
    ((self.process_query query context options).2.process_query
        query context options).1 =
      (self.process_query query context options).1 ∧
    (self.process_query query context options).2 = self :=
  ⟨rfl, rfl⟩
